import Mathlib

/-!
Shallow embedding of `src/events-intercept.ts` (class `EventInterceptor
extends EventEmitter`, plus `monkeyPatch`).

Modelling conventions:

* JS values that flow through the API are modelled by the inductive `Value`
  (null/undefined, booleans, numbers as `Nat`, strings, function references
  identified by a numeric id, and event keys).  JS truthiness (`if (err)`)
  is `Value.truthy`.

* Event-name keys are `EKey`: either a string or a symbol.  A JS symbol has
  identity (two `Symbol("a")` are different property keys) and a string form
  `"Symbol(<descr>)"`; we model it as a `uid` plus a description, with
  `EKey.toStr` giving the string form.  JS property lookup on the
  `_interceptors` object uses the key itself (symbols are valid property
  keys and are not coerced); only `emit` calls `eventName.toString()` before
  the lookup (line 34 of the source).

* The registry `_interceptors : Record<string, Interceptors>` is an
  insertion-ordered association list `List (EKey × IList)`; an `IList` is
  the interceptor array (ids only) together with its `warned` flag.
  Listener lists of the base `EventEmitter` are a second association list;
  the internal shim listener `fakeFunction` is the id `fakeId`.

* Interceptor *behaviour* is separated from interceptor *identity*: the
  registry stores ids, and `emit` is evaluated against an environment
  `Behavior : Nat → List Value → Value × List Value` giving, for each
  interceptor id and received argument list, the `(err, ...args1)` with
  which that interceptor invokes its continuation `next`.  This models the
  contract-conforming interceptor that invokes `next` exactly once,
  synchronously, and returns its result (the pattern of the library's own
  tests); never-calling / double-calling interceptors are outside the
  claims below.

* `next(err, ...)` with truthy `err` performs `this.emit("error", err)`,
  i.e. a recursive call of the *overridden* emit; since an "error"-chain
  that aborts again recurses forever in the source, the model's `emitE`
  takes fuel, consumed once per error hop, and returns `none` when the
  fuel runs out.

* `emit` returns the boolean of `super.emit` when the chain completes and
  `false` when it aborts; `super.emit eventName args` returns whether at
  least one listener is registered for `eventName` and is recorded in the
  trace as `TEv.base`.  Registry-mutating operations record the `emit`
  calls they perform as a list of requests `(key, args)` instead of running
  the chains (their own return values are ignored by the source).
-/

namespace EventsIntercept

/-- An event-name key: a JS string, or a JS symbol (identity `uid`,
description `descr`). -/
inductive EKey where
  | str (s : String)
  | sym (uid : Nat) (descr : String)
deriving DecidableEq, Repr

/-- `eventName.toString()`: identity on strings, `"Symbol(<descr>)"` on
symbols. -/
def EKey.toStr : EKey → String
  | .str s => s
  | .sym _ d => "Symbol(" ++ d ++ ")"

/-- Is the key a string (a property name visible to `for..in` and
`Object.getOwnPropertyNames`)?  Symbol-keyed properties are skipped by
both. -/
def EKey.isStr : EKey → Bool
  | .str _ => true
  | .sym _ _ => false

/-- JS values crossing the API boundary. -/
inductive Value where
  | vNull
  | vBool (b : Bool)
  | vNat (n : Nat)
  | vStr (s : String)
  | vFun (id : Nat)
  | vKey (k : EKey)
deriving DecidableEq, Repr

/-- JS truthiness of a `Value` (`if (err)`). -/
def Value.truthy : Value → Bool
  | .vNull => false
  | .vBool b => b
  | .vNat n => n ≠ 0
  | .vStr s => s ≠ ""
  | .vFun _ => true
  | .vKey _ => true

/-- `typeof v === "function"`. -/
def Value.isFun : Value → Bool
  | .vFun _ => true
  | _ => false

/-- The function id of a `vFun` (0 otherwise; only used under `isFun`). -/
def Value.fid : Value → Nat
  | .vFun i => i
  | _ => 0

/-- One entry of `_interceptors`: the interceptor array (`Interceptors
extends Array<Interceptor>`) with its `warned` flag. -/
structure IList where
  fns : List Nat
  warned : Bool
deriving DecidableEq, Repr

/-- The id of the internal no-op shim listener `fakeFunction`. -/
def fakeId : Nat := 0

/-- State of one `EventInterceptor` (or patched emitter): the ceiling
`_maxInterceptors`, the registry `_interceptors`, and the base
`EventEmitter`'s listener lists. -/
structure EmitterState where
  maxInterceptors : Nat
  reg : List (EKey × IList)
  lstnrs : List (EKey × List Nat)
deriving DecidableEq, Repr

/-- Property lookup in an insertion-ordered association list (JS object
keys are unique; updates preserve position). -/
def assocFind {α : Type} (k : EKey) : List (EKey × α) → Option α
  | [] => none
  | p :: rest => if p.1 = k then some p.2 else assocFind k rest

/-- Overwrite the value at key `k` (key assumed present). -/
def assocSet {α : Type} (k : EKey) (v : α) : List (EKey × α) → List (EKey × α)
  | [] => []
  | p :: rest => if p.1 = k then (k, v) :: rest else p :: assocSet k v rest

/-- `delete obj[k]`. -/
def assocDel {α : Type} (k : EKey) : List (EKey × α) → List (EKey × α)
  | [] => []
  | p :: rest => if p.1 = k then rest else p :: assocDel k rest

/-- Listener list the base emitter holds for `k` (empty when absent). -/
def listenersFor (st : EmitterState) (k : EKey) : List Nat :=
  (assocFind k st.lstnrs).getD []

/-- `super.emit(eventName, ...)`'s boolean: whether at least one listener
is registered for `eventName`. -/
def baseEmitRes (st : EmitterState) (k : EKey) : Bool :=
  !(listenersFor st k).isEmpty

/-- Behaviour environment: interceptor id ↦ received arguments ↦ the
`(err, args1)` it passes to its continuation `next`. -/
def Behavior : Type := Nat → List Value → Value × List Value

/-- Trace events of one emission: an interceptor invoked at chain position
`idx` with `args`, or `super.emit` reached with final `args` (the point
where listeners for `k` run). -/
inductive TEv where
  | icall (idx : Nat) (fn : Nat) (args : List Value)
  | base (k : EKey) (args : List Value)
deriving DecidableEq, Repr

/-- Result of driving one interceptor chain (no error hop yet). -/
inductive ChainRes where
  | complete (args : List Value)
  | aborted (err : Value)
deriving DecidableEq, Repr

/-- Drive the interceptor list from position `i` with current arguments
`args`: each interceptor is invoked, then its continuation call either
aborts the chain (truthy first argument) or supplies the next arguments.
Returns the invocation trace and the outcome. -/
def runChain (env : Behavior) (i : Nat) :
    List Nat → List Value → List TEv × ChainRes
  | [], args => ([], .complete args)
  | f :: rest, args =>
    let s := env f args
    if s.1.truthy then ([.icall i f args], .aborted s.1)
    else
      let r := runChain env (i + 1) rest s.2
      (.icall i f args :: r.1, r.2)

/-- The overridden `emit` (lines 18–43): look up
`_interceptors[eventName.toString()]`; when absent, pass through to
`super.emit`; otherwise drive the chain; on completion call `super.emit`
with the original key and the final arguments; on abort, recursively
`this.emit("error", err)` (one unit of fuel) and return `false`.
`none` = fuel exhausted (the source recurses forever). -/
def emitE : Nat → EmitterState → Behavior → EKey → List Value →
    Option (Bool × List TEv)
  | 0, _, _, _, _ => none
  | fuel + 1, st, env, k, args =>
    match assocFind (EKey.str k.toStr) st.reg with
    | none => some (baseEmitRes st k, [.base k args])
    | some l =>
      match runChain env 0 l.fns args with
      | (tr, .complete a) => some (baseEmitRes st k, tr ++ [.base k a])
      | (tr, .aborted e) =>
        match emitE fuel st env (EKey.str "error") [e] with
        | none => none
        | some p => some (false, tr ++ p.2)

/-- An `emit` call performed by a registry-mutating operation (its key and
arguments); those operations record the calls instead of running the
chains, since their own code ignores the call's return value. -/
abbrev Req := EKey × List Value

/-- `intercept(eventName, interceptor)` (lines 58–85): type-check the
function, emit `"newInterceptor"`, append to the (lazily created) list,
then run the leak check on the just-updated list.  Returns the new state,
the recorded emissions and whether a leak warning was surfaced
(`process.emitWarning`). -/
def interceptOp (st : EmitterState) (k : EKey) (f : Value) :
    Except String (EmitterState × List Req × Bool) :=
  if !f.isFun then .error "interceptor must be a function"
  else
    let req : Req := (.str "newInterceptor", [.vKey k, f])
    let reg1 :=
      match assocFind k st.reg with
      | none => st.reg ++ [(k, ⟨[f.fid], false⟩)]
      | some l => assocSet k ⟨l.fns ++ [f.fid], l.warned⟩ st.reg
    match assocFind k reg1 with
    | none => .ok ({ st with reg := reg1 }, [req], false)
    | some l1 =>
      if l1.warned then .ok ({ st with reg := reg1 }, [req], false)
      else if 0 < st.maxInterceptors ∧ st.maxInterceptors < l1.fns.length
      then .ok ({ st with reg := assocSet k ⟨l1.fns, true⟩ reg1 }, [req], true)
      else .ok ({ st with reg := reg1 }, [req], false)

/-- `interceptors(eventName)` (lines 87–92): a copy of the list, or `[]`
when absent. -/
def interceptorsOp (st : EmitterState) (k : EKey) : List Nat :=
  match assocFind k st.reg with
  | none => []
  | some l => l.fns

/-- Index of the last occurrence of `x` (the source's backwards `for`
loop, lines 109–114). -/
def lastIdx (x : Nat) : List Nat → Option Nat
  | [] => none
  | y :: rest =>
    match lastIdx x rest with
    | some j => some (j + 1)
    | none => if y = x then some 0 else none

/-- `removeInterceptor(eventName, interceptor)` (lines 98–127): type
check; silent no-op when the list is absent or the function is not found;
otherwise remove the last matching occurrence (deleting the key when the
list had one element) and emit `"removeInterceptor"`. -/
def removeInterceptorOp (st : EmitterState) (k : EKey) (f : Value) :
    Except String (EmitterState × List Req) :=
  if !f.isFun then .error "interceptor must be a function"
  else
    match assocFind k st.reg with
    | none => .ok (st, [])
    | some l =>
      match lastIdx f.fid l.fns with
      | none => .ok (st, [])
      | some i =>
        let reg1 :=
          if l.fns.length = 1 then assocDel k st.reg
          else assocSet k ⟨l.fns.eraseIdx i, l.warned⟩ st.reg
        .ok ({ st with reg := reg1 },
             [(.str "removeInterceptor", [.vKey k, f])])

/-- The LIFO loop of `removeAllInterceptors(eventName)` (lines 154–156):
counter `c + 1` performs the iteration with loop index `i = c`, reading
`theseInterceptors[i]` from the live list.  (While the loop runs, the
registry entry for `k` *is* the live array: the key is only deleted by
the final, `i = 0`, removal, and every earlier removal removes the then
last element, so index `i` is still in range.) -/
def removeAllLoop : Nat → EmitterState → EKey → EmitterState × List Req
  | 0, st, _ => (st, [])
  | c + 1, st, k =>
    let cur := ((assocFind k st.reg).map IList.fns).getD []
    match removeInterceptorOp st k (.vFun (cur.getD c fakeId)) with
    | .error _ => (st, [])
    | .ok (st1, r1) =>
      let r := removeAllLoop c st1 k
      (r.1, r1 ++ r.2)

/-- `removeAllInterceptors(eventName)` with an event name (lines
149–159): run the LIFO removal loop, then `delete` the key. -/
def removeAllForKey (st : EmitterState) (k : EKey) : EmitterState × List Req :=
  match assocFind k st.reg with
  | none => (st, [])
  | some l =>
    let r := removeAllLoop l.fns.length st k
    ({ r.1 with reg := assocDel k r.1.reg }, r.2)

/-- `removeAllInterceptors()` with no argument (lines 130–148): no-op
when there is no string-keyed entry (`Object.getOwnPropertyNames` sees
only string keys); otherwise clear every string-keyed event except
`"removeInterceptor"` (in insertion order, as `for..in` visits them),
then `"removeInterceptor"` itself, then reset the whole registry. -/
def removeAllOp (st : EmitterState) : EmitterState × List Req :=
  if (st.reg.filter (fun p => p.1.isStr)).isEmpty then (st, [])
  else
    let keys := (st.reg.map Prod.fst).filter
      (fun k => k.isStr && k != EKey.str "removeInterceptor")
    let r1 := keys.foldl
      (fun acc k =>
        let r := removeAllForKey acc.1 k
        (r.1, acc.2 ++ r.2))
      (st, [])
    let r2 := removeAllForKey r1.1 (.str "removeInterceptor")
    ({ r2.1 with reg := [] }, r1.2 ++ r2.2)

/-- `setMaxInterceptors(n)` (lines 164–170): `Value.vNat` is the only
modelled non-negative number; everything else fails the
number/non-negative/non-NaN check. -/
def setMaxInterceptorsOp (st : EmitterState) (n : Value) :
    Except String EmitterState :=
  match n with
  | .vNat m => .ok { st with maxInterceptors := m }
  | _ => .error "n must be a positive number"

/-- Base `EventEmitter.on`: append the listener to the event's list. -/
def onOp (st : EmitterState) (k : EKey) (f : Nat) : EmitterState :=
  { st with
    lstnrs :=
      match assocFind k st.lstnrs with
      | none => st.lstnrs ++ [(k, [f])]
      | some fs => assocSet k (fs ++ [f]) st.lstnrs }

/-- `fixListeners` (lines 175–178): register the no-op shim for both
lifecycle event names. -/
def fixListeners (st : EmitterState) : EmitterState :=
  onOp (onOp st (.str "newListener") fakeId) (.str "removeListener") fakeId

/-- `EventInterceptor.defaultMaxInterceptors` (line 8). -/
def defaultMaxInterceptors : Nat := 10

/-- The `EventInterceptor` constructor (lines 13–16): default ceiling,
empty registry, then `fixListeners`. -/
def initState : EmitterState :=
  fixListeners { maxInterceptors := defaultMaxInterceptors, reg := [], lstnrs := [] }

/-- `monkeyPatch` applied to an unpatched base emitter with listener
lists `ls` (lines 180–196): the copied methods are modelled by the
operations above; `??=` seeds the ceiling and registry, and
`fixListeners` runs. -/
def patchState (ls : List (EKey × List Nat)) : EmitterState :=
  fixListeners { maxInterceptors := defaultMaxInterceptors, reg := [], lstnrs := ls }

/-- The overridden `listeners(eventName)` (lines 45–56): for exactly the
two lifecycle names, drop the first occurrence of the shim from a copy of
`super.listeners`; otherwise pass through. -/
def listenersOp (st : EmitterState) (k : EKey) : List Nat :=
  let supL := listenersFor st k
  if k = .str "newListener" ∨ k = .str "removeListener" then
    match supL.findIdx? (fun x => x == fakeId) with
    | none => supL
    | some i => supL.eraseIdx i
  else supL

/-- The arguments delivered to chain position `j` (assuming every earlier
interceptor continued): position 0 receives the original arguments, and
position `j + 1` receives what position `j` passed to its continuation. -/
def argAt (env : Behavior) : List Nat → List Value → Nat → List Value
  | _, args, 0 => args
  | [], args, _ + 1 => args
  | f :: rest, args, j + 1 => argAt env rest (env f args).2 j

/-- Register the interceptors `fs` one after another for key `k`,
collecting the leak-warning flag of each `intercept` call. -/
def interceptRun (k : EKey) : EmitterState → List Nat → EmitterState × List Bool
  | st, [] => (st, [])
  | st, f :: fs =>
    match interceptOp st k (.vFun f) with
    | .ok (st1, _, w) =>
      let r := interceptRun k st1 fs
      (r.1, w :: r.2)
    | .error _ => (st, [])

/-- A registry-mutating operation, for reasoning about arbitrary
sequences of them. -/
inductive Op where
  | addI (k : EKey) (f : Value)
  | rmI (k : EKey) (f : Value)
  | rmAll (k : Option EKey)

/-- State effect of one operation (a thrown type error leaves the state
untouched: the sources throw before mutating). -/
def applyOp (st : EmitterState) : Op → EmitterState
  | .addI k f =>
    match interceptOp st k f with
    | .ok r => r.1
    | .error _ => st
  | .rmI k f =>
    match removeInterceptorOp st k f with
    | .ok r => r.1
    | .error _ => st
  | .rmAll none => (removeAllOp st).1
  | .rmAll (some k) => (removeAllForKey st k).1

/-- State after a sequence of operations. -/
def applyOps (st : EmitterState) (ops : List Op) : EmitterState :=
  ops.foldl applyOp st

/-- The registry invariant: every present key maps to a non-empty
interceptor list. -/
def regInv (st : EmitterState) : Prop := ∀ p ∈ st.reg, p.2.fns ≠ []

/-- Concrete emitter for witnesses: one interceptor (id 1) for `"t"`, one
listener (id 5) for `"t"`. -/
def wSt : EmitterState :=
  { maxInterceptors := 10,
    reg := [(.str "t", ⟨[1], false⟩)],
    lstnrs := [(.str "t", [5])] }

/-- Concrete emitter for witnesses: interceptor 1 for `"t"`, interceptor
9 for `"error"`, a listener for `"error"`. -/
def wStE : EmitterState :=
  { maxInterceptors := 10,
    reg := [(.str "t", ⟨[1], false⟩), (.str "error", ⟨[9], false⟩)],
    lstnrs := [(.str "error", [7])] }

/-- Witness behaviour: every interceptor continues with its arguments
unchanged. -/
def wEnvId : Behavior := fun _ args => (.vNull, args)

/-- Witness behaviour: interceptor 9 (the `"error"` interceptor) wraps
the payload; every other interceptor aborts with `"boom"`. -/
def wEnvT : Behavior := fun f _ =>
  if f = 9 then (.vNull, [.vStr "wrapped"]) else (.vStr "boom", [])

/-- State in which an interceptor was registered under a *symbol* key. -/
def c4state : EmitterState :=
  match interceptOp initState (.sym 0 "a") (.vFun 1) with
  | .ok (s, _, _) => s
  | .error _ => initState

/-- `initState` after `setMaxInterceptors(5)`. -/
def st5 : EmitterState :=
  match setMaxInterceptorsOp initState (.vNat 5) with
  | .ok s => s
  | .error _ => initState

/-- `initState` after registering interceptor 3 for `"t"`. -/
def c9state : EmitterState :=
  match interceptOp initState (.str "t") (.vFun 3) with
  | .ok (s, _, _) => s
  | .error _ => initState

/-- `c4state` after registering interceptor 2 under a second symbol with
the same description. -/
def c4state2 : EmitterState :=
  match interceptOp c4state (.sym 1 "a") (.vFun 2) with
  | .ok (s, _, _) => s
  | .error _ => c4state

/-- Expected leak-warning flags for a run of consecutive registrations:
starting from a list of length `base`, the j-th registration (0-based)
surfaces a warning exactly when the ceiling `m` is positive and equals
`base + j` (the registration that first pushes the length past `m`). -/
def warnPattern (m : Nat) : Nat → Nat → List Bool
  | _, 0 => []
  | base, n + 1 => decide (0 < m ∧ m = base) :: warnPattern m (base + 1) n

/-- The `warned` flag of the list registered at `k` (false when absent). -/
def warnedOf (st : EmitterState) (k : EKey) : Bool :=
  match assocFind k st.reg with
  | none => false
  | some l => l.warned

/-! ### Association-list lemmas -/

theorem assocFind_append {α : Type} (k : EKey) (L1 L2 : List (EKey × α)) :
    assocFind k (L1 ++ L2) =
      match assocFind k L1 with
      | some v => some v
      | none => assocFind k L2 := by
  induction L1 with
  | nil => simp [assocFind]
  | cons p rest ih =>
    by_cases h : p.1 = k <;> simp [assocFind, h, ih]

theorem assocFind_append_absent {α : Type} {k : EKey} {L : List (EKey × α)}
    (h : assocFind k L = none) (v : α) :
    assocFind k (L ++ [(k, v)]) = some v := by
  rw [assocFind_append, h]
  simp [assocFind]

theorem assocFind_append_ne {α : Type} {k k2 : EKey} (h : k2 ≠ k)
    (L : List (EKey × α)) (v : α) :
    assocFind k2 (L ++ [(k, v)]) = assocFind k2 L := by
  rw [assocFind_append]
  cases hf : assocFind k2 L with
  | some w => rfl
  | none => simp [assocFind, Ne.symm h]

theorem assocFind_set_self {α : Type} {k : EKey} {L : List (EKey × α)} {v0 : α}
    (h : assocFind k L = some v0) (v : α) :
    assocFind k (assocSet k v L) = some v := by
  induction L with
  | nil => simp [assocFind] at h
  | cons p rest ih =>
    by_cases hp : p.1 = k
    · rw [assocSet, if_pos hp, assocFind, if_pos rfl]
    · rw [assocFind, if_neg hp] at h
      rw [assocSet, if_neg hp, assocFind, if_neg hp]
      exact ih h

theorem assocFind_set_ne {α : Type} {k k2 : EKey} (h : k2 ≠ k)
    (L : List (EKey × α)) (v : α) :
    assocFind k2 (assocSet k v L) = assocFind k2 L := by
  induction L with
  | nil => simp [assocSet]
  | cons p rest ih =>
    by_cases hp : p.1 = k
    · rw [assocSet, if_pos hp, assocFind, if_neg (Ne.symm h), assocFind,
        if_neg (show ¬p.1 = k2 by rw [hp]; exact Ne.symm h)]
    · rw [assocSet, if_neg hp, assocFind, assocFind]
      by_cases hp2 : p.1 = k2
      · rw [if_pos hp2, if_pos hp2]
      · rw [if_neg hp2, if_neg hp2]
        exact ih

theorem assocFind_del_ne {α : Type} {k k2 : EKey} (h : k2 ≠ k)
    (L : List (EKey × α)) :
    assocFind k2 (assocDel k L) = assocFind k2 L := by
  induction L with
  | nil => simp [assocDel]
  | cons p rest ih =>
    by_cases hp : p.1 = k
    · rw [assocDel, if_pos hp, assocFind,
        if_neg (show ¬p.1 = k2 by rw [hp]; exact Ne.symm h)]
    · rw [assocDel, if_neg hp, assocFind, assocFind]
      by_cases hp2 : p.1 = k2
      · rw [if_pos hp2, if_pos hp2]
      · rw [if_neg hp2, if_neg hp2]
        exact ih

theorem assocFind_del_self {α : Type} {k : EKey} {L : List (EKey × α)}
    (h : (L.map Prod.fst).Nodup) :
    assocFind k (assocDel k L) = none := by
  induction L with
  | nil => simp [assocDel, assocFind]
  | cons p rest ih =>
    simp only [List.map_cons, List.nodup_cons] at h
    by_cases hp : p.1 = k
    · subst hp
      simp only [assocDel, if_pos rfl]
      cases hf : assocFind p.1 rest with
      | none => exact hf
      | some v =>
        exfalso
        have : p.1 ∈ rest.map Prod.fst := by
          clear ih h
          induction rest with
          | nil => simp [assocFind] at hf
          | cons q rs ihr =>
            by_cases hq : q.1 = p.1
            · simp [hq]
            · simp [assocFind, hq] at hf
              simp [ihr hf]
        exact h.1 this
    · simp [assocDel, hp, assocFind, ih h.2]

theorem mem_assocSet {α : Type} {p : EKey × α} {k : EKey} {v : α}
    {L : List (EKey × α)} (h : p ∈ assocSet k v L) : p = (k, v) ∨ p ∈ L := by
  induction L with
  | nil => simp [assocSet] at h
  | cons q rest ih =>
    by_cases hq : q.1 = k
    · simp [assocSet, hq] at h
      rcases h with h | h
      · exact .inl h
      · exact .inr (by simp [h])
    · simp [assocSet, hq] at h
      rcases h with h | h
      · exact .inr (by simp [h])
      · rcases ih h with h2 | h2
        · exact .inl h2
        · exact .inr (by simp [h2])

theorem mem_assocDel {α : Type} {p : EKey × α} {k : EKey}
    {L : List (EKey × α)} (h : p ∈ assocDel k L) : p ∈ L := by
  induction L with
  | nil => simp [assocDel] at h
  | cons q rest ih =>
    by_cases hq : q.1 = k
    · simp [assocDel, hq] at h
      simp [h]
    · simp [assocDel, hq] at h
      rcases h with h | h
      · simp [h]
      · simp [ih h]

/-! ### Chain-executor lemmas -/

theorem runChain_complete {env : Behavior} :
    ∀ (fns : List Nat) (i : Nat) (args : List Value) (tr : List TEv)
      (a : List Value),
    runChain env i fns args = (tr, .complete a) →
    tr.length = fns.length ∧
    (∀ j (hj : j < tr.length),
      tr.get ⟨j, hj⟩ = .icall (i + j) (fns.getD j 0) (argAt env fns args j)) ∧
    a = argAt env fns args fns.length := by
  intro fns
  induction fns with
  | nil =>
    intro i args tr a h
    simp [runChain] at h
    refine ⟨by simp [h.1], ?_, by simp [h.2, argAt]⟩
    intro j hj
    rw [h.1] at hj
    exact absurd hj (by simp)
  | cons f rest ih =>
    intro i args tr a h
    cases ht : (env f args).1.truthy
    · simp only [runChain, ht, Bool.false_eq_true, if_false] at h
      have htr : tr = .icall i f args :: (runChain env (i + 1) rest (env f args).2).1 :=
        (congrArg Prod.fst h).symm
      have hres : (runChain env (i + 1) rest (env f args).2).2 = .complete a :=
        congrArg Prod.snd h
      obtain ⟨hlen, hget, ha⟩ :=
        ih (i + 1) (env f args).2 (runChain env (i + 1) rest (env f args).2).1 a
          (by rw [Prod.ext_iff]; exact ⟨rfl, hres⟩)
      subst htr
      refine ⟨by simp [hlen], ?_, by rw [ha]; simp [argAt]⟩
      intro j hj
      match j with
      | 0 => simp [argAt]
      | j' + 1 =>
        simp only [List.get_cons_succ]
        have hj2 : j' < (runChain env (i + 1) rest (env f args).2).1.length := by
          simpa using hj
        rw [hget j' hj2]
        simp only [List.getD_cons_succ]
        have : i + 1 + j' = i + (j' + 1) := by omega
        rw [this]
        rfl
    · simp only [runChain, ht, if_true] at h
      exact absurd (congrArg Prod.snd h) (by simp)

theorem runChain_aborted {env : Behavior} :
    ∀ (fns : List Nat) (i : Nat) (args : List Value) (tr : List TEv)
      (e : Value),
    runChain env i fns args = (tr, .aborted e) →
    ∃ j, j < fns.length ∧ tr.length = j + 1 ∧
      (∀ idx (h : idx < tr.length),
        tr.get ⟨idx, h⟩ = .icall (i + idx) (fns.getD idx 0) (argAt env fns args idx)) ∧
      (env (fns.getD j 0) (argAt env fns args j)).1 = e ∧ e.truthy = true := by
  intro fns
  induction fns with
  | nil =>
    intro i args tr e h
    simp [runChain] at h
  | cons f rest ih =>
    intro i args tr e h
    cases ht : (env f args).1.truthy
    · simp only [runChain, ht, Bool.false_eq_true, if_false] at h
      have htr : tr = .icall i f args :: (runChain env (i + 1) rest (env f args).2).1 :=
        (congrArg Prod.fst h).symm
      have hres : (runChain env (i + 1) rest (env f args).2).2 = .aborted e :=
        congrArg Prod.snd h
      obtain ⟨j, hjlt, hjlen, hget, he, htru⟩ :=
        ih (i + 1) (env f args).2 (runChain env (i + 1) rest (env f args).2).1 e
          (by rw [Prod.ext_iff]; exact ⟨rfl, hres⟩)
      subst htr
      refine ⟨j + 1, by simpa using hjlt, by simp [hjlen], ?_, ?_, htru⟩
      · intro idx hidx
        match idx with
        | 0 => simp [argAt]
        | idx' + 1 =>
          simp only [List.get_cons_succ]
          have hidx2 : idx' < (runChain env (i + 1) rest (env f args).2).1.length := by
            simpa using hidx
          rw [hget idx' hidx2]
          simp only [List.getD_cons_succ]
          have : i + 1 + idx' = i + (idx' + 1) := by omega
          rw [this]
          rfl
      · simpa [argAt] using he
    · simp only [runChain, ht, if_true] at h
      have htr : tr = [TEv.icall i f args] := (congrArg Prod.fst h).symm
      have hres : ChainRes.aborted (env f args).1 = .aborted e :=
        congrArg Prod.snd h
      have he : (env f args).1 = e := by injection hres
      subst htr
      refine ⟨0, by simp, by simp, ?_, ?_, ?_⟩
      · intro idx hidx
        match idx with
        | 0 => simp [argAt]
        | idx' + 1 => exact absurd hidx (by simp)
      · simp only [List.getD_cons_zero, argAt]
        exact he
      · rw [← he]
        exact ht

/-! ### Claims about the chain executor -/

/-- Claim C1: with a non-empty interceptor list, when the chain completes
the value returned by emit is the Base Emitter's emit result (whether at
least one listener is registered for the original key), and when the
chain aborts with an error, emit returns false (whenever it returns at
all). -/
theorem emit_returns_base_result_or_false
    (fuel : Nat) (st : EmitterState) (env : Behavior) (k : EKey)
    (args : List Value) (l : IList)
    (h : assocFind (EKey.str k.toStr) st.reg = some l) :
    (∀ tr a, runChain env 0 l.fns args = (tr, .complete a) →
      emitE (fuel + 1) st env k args =
        some (baseEmitRes st k, tr ++ [TEv.base k a])) ∧
    (∀ tr e b tr2, runChain env 0 l.fns args = (tr, .aborted e) →
      emitE (fuel + 1) st env k args = some (b, tr2) → b = false) := by
  constructor
  · intro tr a h2
    simp only [emitE, h, h2]
  · intro tr e b tr2 h2 h3
    simp only [emitE, h, h2] at h3
    cases hm : emitE fuel st env (.str "error") [e] with
    | none => rw [hm] at h3; exact absurd h3 (by simp)
    | some p =>
      rw [hm] at h3
      injection h3 with h4
      exact (congrArg Prod.fst h4).symm

/-- Witness for C1 at a concrete emitter: one interceptor that continues
unchanged, one listener; emit returns the base result with the chain
trace. -/
theorem emit_returns_base_result_or_false_witness :
    emitE 2 wSt wEnvId (.str "t") [.vNat 3] =
      some (baseEmitRes wSt (.str "t"),
        [TEv.icall 0 1 [.vNat 3]] ++ [TEv.base (.str "t") [.vNat 3]]) :=
  (emit_returns_base_result_or_false 1 wSt wEnvId (.str "t") [.vNat 3]
    ⟨[1], false⟩ (by decide)).1 [TEv.icall 0 1 [.vNat 3]] [.vNat 3] (by decide)

/-- Claim C2: when an interceptor invokes its continuation with a truthy
first argument, the emission's chain trace stops at that interceptor (no
later position is invoked), contains no base-emit event (no listener for
the original event name runs in that emission), and the rest of the
emission is exactly an `"error"` emission carrying that value on the same
emitter. -/
theorem abort_short_circuits
    (fuel : Nat) (st : EmitterState) (env : Behavior) (k : EKey)
    (args : List Value) (l : IList) (tr : List TEv) (e : Value)
    (h : assocFind (EKey.str k.toStr) st.reg = some l)
    (h2 : runChain env 0 l.fns args = (tr, .aborted e)) :
    (∃ j, j < l.fns.length ∧ tr.length = j + 1 ∧
      ∀ idx (hidx : idx < tr.length),
        tr.get ⟨idx, hidx⟩ =
          .icall idx (l.fns.getD idx 0) (argAt env l.fns args idx)) ∧
    (∀ ev ∈ tr, ∀ k2 a2, ev ≠ TEv.base k2 a2) ∧
    emitE (fuel + 1) st env k args =
      (emitE fuel st env (.str "error") [e]).map
        (fun p => (false, tr ++ p.2)) := by
  obtain ⟨j, hj, hlen, hget, he, htru⟩ := runChain_aborted l.fns 0 args tr e h2
  refine ⟨⟨j, hj, hlen, ?_⟩, ?_, ?_⟩
  · intro idx hidx
    have := hget idx hidx
    rwa [Nat.zero_add] at this
  · intro ev hev k2 a2
    obtain ⟨⟨idx, hidx⟩, hevg⟩ := List.mem_iff_get.mp hev
    rw [hget idx hidx] at hevg
    rw [← hevg]
    simp
  · simp only [emitE, h, h2]
    cases emitE fuel st env (.str "error") [e] <;> simp

/-- Witness for C2: interceptor 1 aborts with `"boom"`; the emission is
the one-step chain trace followed by the `"error"` emission. -/
theorem abort_short_circuits_witness :
    emitE 2 wSt wEnvT (.str "t") [.vNat 3] =
      (emitE 1 wSt wEnvT (.str "error") [.vStr "boom"]).map
        (fun p => (false, [TEv.icall 0 1 [.vNat 3]] ++ p.2)) :=
  (abort_short_circuits 1 wSt wEnvT (.str "t") [.vNat 3] ⟨[1], false⟩
    [TEv.icall 0 1 [.vNat 3]] (.vStr "boom") (by decide) (by decide)).2.2

/-- Claim C3: when the chain completes, the interceptors ran in exact
registration order (position j of the trace is interceptor j of the
list), position 0 received the original emit arguments, each position
received what its predecessor passed to the continuation (the `argAt`
recurrence), and the Base Emitter's emit was invoked with the event name
and the final argument list. -/
theorem chain_runs_in_order
    (fuel : Nat) (st : EmitterState) (env : Behavior) (k : EKey)
    (args : List Value) (l : IList) (tr : List TEv) (a : List Value)
    (h : assocFind (EKey.str k.toStr) st.reg = some l)
    (h2 : runChain env 0 l.fns args = (tr, .complete a)) :
    tr.length = l.fns.length ∧
    (∀ j (hj : j < tr.length),
      tr.get ⟨j, hj⟩ = .icall j (l.fns.getD j 0) (argAt env l.fns args j)) ∧
    argAt env l.fns args 0 = args ∧
    a = argAt env l.fns args l.fns.length ∧
    emitE (fuel + 1) st env k args =
      some (baseEmitRes st k, tr ++ [TEv.base k a]) := by
  obtain ⟨hlen, hget, ha⟩ := runChain_complete l.fns 0 args tr a h2
  refine ⟨hlen, ?_, ?_, ha, by simp only [emitE, h, h2]⟩
  · intro j hj
    have := hget j hj
    rwa [Nat.zero_add] at this
  · cases l.fns <;> rfl

/-- Witness for C3 at a concrete one-interceptor chain. -/
theorem chain_runs_in_order_witness :
    argAt wEnvId [1] [Value.vNat 3] 0 = [Value.vNat 3] ∧
    emitE 2 wSt wEnvId (.str "t") [.vNat 3] =
      some (baseEmitRes wSt (.str "t"),
        [TEv.icall 0 1 [.vNat 3]] ++ [TEv.base (.str "t") [.vNat 3]]) := by
  have h := chain_runs_in_order 1 wSt wEnvId (.str "t") [.vNat 3]
    ⟨[1], false⟩ [TEv.icall 0 1 [.vNat 3]] [.vNat 3] (by decide) (by decide)
  exact ⟨h.2.2.1, h.2.2.2.2⟩

/-- Claim C10: the chain-error path emits `"error"` through the
overridden emit, so interceptors registered for `"error"` run on it: the
aborting emission continues as an `emitE` call on `"error"`, an
`"error"`-chain that completes delivers its (possibly transformed)
final payload to the `"error"` listeners, and an `"error"`-chain that
aborts again yields another error hop instead of delivering. -/
theorem error_routed_through_overridden_emit
    (fuel : Nat) (st : EmitterState) (env : Behavior) (k : EKey)
    (args : List Value) (l : IList) (tr : List TEv) (e : Value) (le : IList)
    (h : assocFind (EKey.str k.toStr) st.reg = some l)
    (h2 : runChain env 0 l.fns args = (tr, .aborted e))
    (hE : assocFind (.str "error") st.reg = some le) :
    (emitE (fuel + 1) st env k args =
      (emitE fuel st env (.str "error") [e]).map
        (fun p => (false, tr ++ p.2))) ∧
    (∀ tr2 a2, runChain env 0 le.fns [e] = (tr2, .complete a2) →
      emitE (fuel + 1) st env (.str "error") [e] =
        some (baseEmitRes st (.str "error"),
          tr2 ++ [TEv.base (.str "error") a2])) ∧
    (∀ tr2 e2, runChain env 0 le.fns [e] = (tr2, .aborted e2) →
      emitE (fuel + 1) st env (.str "error") [e] =
        (emitE fuel st env (.str "error") [e2]).map
          (fun p => (false, tr2 ++ p.2))) := by
  refine ⟨?_, ?_, ?_⟩
  · simp only [emitE, h, h2]
    cases emitE fuel st env (.str "error") [e] <;> simp
  · intro tr2 a2 hc
    simp only [emitE, EKey.toStr, hE, hc]
  · intro tr2 e2 hc
    simp only [emitE, EKey.toStr, hE, hc]
    cases emitE fuel st env (.str "error") [e2] <;> simp

/-- Witness for C10: interceptor 1 aborts with `"boom"`; the `"error"`
interceptor 9 transforms the payload to `"wrapped"`, which is what
reaches the `"error"` listeners. -/
theorem error_routed_through_overridden_emit_witness :
    emitE 2 wStE wEnvT (.str "error") [.vStr "boom"] =
      some (baseEmitRes wStE (.str "error"),
        [TEv.icall 0 9 [.vStr "boom"]] ++
          [TEv.base (.str "error") [.vStr "wrapped"]]) :=
  (error_routed_through_overridden_emit 1 wStE wEnvT (.str "t")
    [.vNat 3] ⟨[1], false⟩ [TEv.icall 0 1 [.vNat 3]] (.vStr "boom")
    ⟨[9], false⟩ (by decide) (by decide) (by decide)).2.1
    [TEv.icall 0 9 [.vStr "boom"]] [.vStr "wrapped"] (by decide)

/-! ### Characterization of `intercept` -/

/-- Successful `intercept`: the `"newInterceptor"` emission is recorded,
the interceptor id is appended to the (created-if-absent) list at the raw
key, the warning flag/flagging follow the leak check, and nothing else
changes. -/
theorem interceptOp_spec (st : EmitterState) (k : EKey) (f : Value)
    (hf : f.isFun = true) :
    ∃ st2, interceptOp st k f =
      .ok (st2, [(.str "newInterceptor", [.vKey k, f])],
        decide (warnedOf st k = false ∧ 0 < st.maxInterceptors ∧
          st.maxInterceptors < (interceptorsOp st k).length + 1)) ∧
      assocFind k st2.reg =
        some ⟨interceptorsOp st k ++ [f.fid],
          warnedOf st k || decide (0 < st.maxInterceptors ∧
            st.maxInterceptors < (interceptorsOp st k).length + 1)⟩ ∧
      st2.lstnrs = st.lstnrs ∧ st2.maxInterceptors = st.maxInterceptors ∧
      (∀ k2, k2 ≠ k → assocFind k2 st2.reg = assocFind k2 st.reg) ∧
      (∀ p ∈ st2.reg,
        (p.1 = k ∧ p.2.fns = interceptorsOp st k ++ [f.fid]) ∨ p ∈ st.reg) := by
  cases hA : assocFind k st.reg with
  | none =>
    have hIv : interceptorsOp st k = [] := by simp [interceptorsOp, hA]
    have hWO : warnedOf st k = false := by simp [warnedOf, hA]
    have hApp := assocFind_append_absent hA (IList.mk [f.fid] false)
    refine ⟨{ st with reg := st.reg ++ [(k, ⟨[f.fid], false⟩)] },
      ?_, ?_, rfl, rfl, ?_, ?_⟩
    · have hC : decide (warnedOf st k = false ∧ 0 < st.maxInterceptors ∧
          st.maxInterceptors < (interceptorsOp st k).length + 1) = false := by
        rw [hIv, hWO]
        refine decide_eq_false (fun h => ?_)
        obtain ⟨_, h1, h2⟩ := h
        simp at h2
        omega
      rw [hC]
      simp only [interceptOp, hf, Bool.not_true, Bool.false_eq_true, if_false,
        hA, hApp]
      rw [if_neg (show ¬(0 < st.maxInterceptors ∧
          st.maxInterceptors < [f.fid].length) from fun h => by
        obtain ⟨h1, h2⟩ := h
        simp at h2
        omega)]
    · rw [hApp, hIv, hWO]
      have hC2 : decide (0 < st.maxInterceptors ∧
          st.maxInterceptors < ([] : List Nat).length + 1) = false := by
        refine decide_eq_false (fun h => ?_)
        obtain ⟨h1, h2⟩ := h
        simp at h2
        omega
      rw [hC2]
      rfl
    · intro k2 hk2
      exact assocFind_append_ne hk2 st.reg _
    · intro p hp
      rcases List.mem_append.mp hp with h1 | h2
      · exact .inr h1
      · left
        have hpv : p = (k, ⟨[f.fid], false⟩) := by simpa using h2
        rw [hpv, hIv]
        exact ⟨rfl, rfl⟩
  | some l0 =>
    have hIv : interceptorsOp st k = l0.fns := by simp [interceptorsOp, hA]
    have hWO : warnedOf st k = l0.warned := by simp [warnedOf, hA]
    have hSet := assocFind_set_self hA (IList.mk (l0.fns ++ [f.fid]) l0.warned)
    cases hw : l0.warned with
    | true =>
      have hwdec : decide (warnedOf st k = false ∧ 0 < st.maxInterceptors ∧
          st.maxInterceptors < (interceptorsOp st k).length + 1) = false := by
        rw [hWO, hw]
        exact decide_eq_false (fun h => by simp at h)
      refine ⟨{ st with reg := assocSet k ⟨l0.fns ++ [f.fid], l0.warned⟩ st.reg },
        ?_, ?_, rfl, rfl, ?_, ?_⟩
      · rw [hwdec]
        simp only [interceptOp, hf, Bool.not_true, Bool.false_eq_true, if_false,
          hA, hSet]
        rw [if_pos hw]
      · rw [hIv, hWO, hw, Bool.true_or]
        rw [hw] at hSet
        exact hSet
      · intro k2 hk2
        rw [assocFind_set_ne hk2]
      · intro p hp
        rcases mem_assocSet hp with h1 | h2
        · left
          rw [h1, hIv]
          exact ⟨rfl, rfl⟩
        · exact .inr h2
    | false =>
      by_cases hc : 0 < st.maxInterceptors ∧
          st.maxInterceptors < (l0.fns ++ [f.fid]).length
      · have hwdec : decide (warnedOf st k = false ∧ 0 < st.maxInterceptors ∧
            st.maxInterceptors < (interceptorsOp st k).length + 1) = true := by
          rw [hIv, hWO, hw]
          exact decide_eq_true ⟨rfl, hc.1, by simpa using hc.2⟩
        have hwor : (warnedOf st k || decide (0 < st.maxInterceptors ∧
            st.maxInterceptors < (interceptorsOp st k).length + 1)) = true := by
          rw [hIv, hWO, hw]
          have : decide (0 < st.maxInterceptors ∧
              st.maxInterceptors < l0.fns.length + 1) = true :=
            decide_eq_true ⟨hc.1, by simpa using hc.2⟩
          rw [this, Bool.or_true]
        refine ⟨{ st with reg := (assocSet k (IList.mk (l0.fns ++ [f.fid]) true)
            (assocSet k (IList.mk (l0.fns ++ [f.fid]) l0.warned) st.reg)) },
          ?_, ?_, rfl, rfl, ?_, ?_⟩
        · rw [hwdec]
          simp only [interceptOp, hf, Bool.not_true, Bool.false_eq_true,
            if_false, hA, hSet]
          rw [hw, if_neg (by simp), if_pos hc]
        · rw [hwor, hIv]
          exact assocFind_set_self hSet _
        · intro k2 hk2
          rw [assocFind_set_ne hk2, assocFind_set_ne hk2]
        · intro p hp
          rcases mem_assocSet hp with h1 | h2
          · left
            rw [h1, hIv]
            exact ⟨rfl, rfl⟩
          · rcases mem_assocSet h2 with h3 | h4
            · left
              rw [h3, hIv]
              exact ⟨rfl, rfl⟩
            · exact .inr h4
      · have hwdec : decide (warnedOf st k = false ∧ 0 < st.maxInterceptors ∧
            st.maxInterceptors < (interceptorsOp st k).length + 1) = false := by
          rw [hIv, hWO, hw]
          refine decide_eq_false (fun h => ?_)
          exact hc ⟨h.2.1, by simpa using h.2.2⟩
        have hwor : (warnedOf st k || decide (0 < st.maxInterceptors ∧
            st.maxInterceptors < (interceptorsOp st k).length + 1)) = false := by
          rw [hIv, hWO, hw, Bool.false_or]
          refine decide_eq_false (fun h => ?_)
          exact hc ⟨h.1, by simpa using h.2⟩
        refine ⟨{ st with reg := assocSet k ⟨l0.fns ++ [f.fid], l0.warned⟩ st.reg },
          ?_, ?_, rfl, rfl, ?_, ?_⟩
        · rw [hwdec]
          simp only [interceptOp, hf, Bool.not_true, Bool.false_eq_true,
            if_false, hA, hSet]
          rw [hw, if_neg (by simp), if_neg hc]
        · rw [hwor, hIv, ← hw]
          exact hSet
        · intro k2 hk2
          rw [assocFind_set_ne hk2]
        · intro p hp
          rcases mem_assocSet hp with h1 | h2
          · left
            rw [h1, hIv]
            exact ⟨rfl, rfl⟩
          · exact .inr h2

/-! ### Claim C4: key addressing -/

/-- Claim C4 counterexample: interceptor 1 is registered under the symbol
key (uid 0, description "a"), yet an emit with that very key passes
straight through to the base emitter (the trace holds no interceptor
invocation), because emit looks up the *string form* of the key while
intercept stored under the raw symbol; moreover a second symbol with the
same string form gets its own separate list. -/
theorem symbol_key_lookup_divergence :
    interceptorsOp c4state (.sym 0 "a") = [1] ∧
    EKey.toStr (.sym 0 "a") = EKey.toStr (.sym 1 "a") ∧
    (EKey.sym 0 "a") ≠ (EKey.sym 1 "a") ∧
    emitE 5 c4state wEnvId (.sym 0 "a") [.vNat 7] =
      some (false, [TEv.base (.sym 0 "a") [.vNat 7]]) ∧
    interceptorsOp c4state2 (.sym 0 "a") = [1] ∧
    interceptorsOp c4state2 (.sym 1 "a") = [2] := by decide

/-- Claim C4 (amended): `intercept`, `interceptors` and
`removeInterceptor` address the registry by the raw key, and only `emit`
converts its key to its string form before the lookup.  For string keys
all operations therefore agree — after `intercept` on a string key, the
entry `emit` consults is exactly the registered list with the new
interceptor appended — while for a symbol key `emit` consults the entry
stored under the symbol's string form, passing through when no such
string-keyed entry exists regardless of what is stored under the symbol
itself. -/
theorem registry_key_addressing :
    (∀ (st : EmitterState) (s : String) (f : Value) st2 r w,
      f.isFun = true →
      interceptOp st (.str s) f = .ok (st2, r, w) →
      ∃ l, assocFind (EKey.str (EKey.str s).toStr) st2.reg = some l ∧
        l.fns = interceptorsOp st (.str s) ++ [f.fid]) ∧
    (∀ (st : EmitterState) (env : Behavior) (fuel : Nat) (u : Nat)
      (d : String) (args : List Value),
      assocFind (EKey.str (EKey.sym u d).toStr) st.reg = none →
      emitE (fuel + 1) st env (.sym u d) args =
        some (baseEmitRes st (.sym u d), [TEv.base (.sym u d) args])) := by
  constructor
  · intro st s f st2 r w hf hok
    obtain ⟨st3, hop, hfind, _, _, _, _⟩ := interceptOp_spec st (.str s) f hf
    rw [hop] at hok
    injection hok with hok2
    have hst : st3 = st2 := congrArg Prod.fst hok2
    subst hst
    exact ⟨_, hfind, rfl⟩
  · intro st env fuel u d args h
    simp only [emitE, h]

/-- Witness for the amended C4 at concrete inputs: a string-key intercept
is visible to emit's lookup, and a symbol-key emit passes through when
the string form is unregistered. -/
theorem registry_key_addressing_witness :
    (∃ l, assocFind (EKey.str (EKey.str "t").toStr) c9state.reg = some l ∧
      l.fns = interceptorsOp initState (.str "t") ++ [(Value.vFun 3).fid]) ∧
    emitE 3 c4state wEnvId (.sym 0 "a") [.vNat 7] =
      some (baseEmitRes c4state (.sym 0 "a"), [TEv.base (.sym 0 "a") [.vNat 7]]) :=
  ⟨registry_key_addressing.1 initState "t" (.vFun 3) c9state
      [(.str "newInterceptor", [.vKey (.str "t"), .vFun 3])] false
      (by decide) (by rfl),
    registry_key_addressing.2 c4state wEnvId 2 0 "a" [.vNat 7] (by decide)⟩

/-! ### Claim C9: registration is unconditional -/

/-- Claim C9: for a callable f, intercept emits "newInterceptor" and then
appends f to the key's list unconditionally: the resulting state never
depends on what the notification's interceptors or listeners do (the
update is a pure function of the prior registry), f ends up as the last
element of the list, and nothing else in the state changes. -/
theorem intercept_appends_unconditionally
    (st : EmitterState) (k : EKey) (f : Value) (hf : f.isFun = true) :
    ∃ st2 w, interceptOp st k f =
      .ok (st2, [(.str "newInterceptor", [.vKey k, f])], w) ∧
      interceptorsOp st2 k = interceptorsOp st k ++ [f.fid] ∧
      (interceptorsOp st2 k).getLast? = some f.fid ∧
      st2.lstnrs = st.lstnrs ∧ st2.maxInterceptors = st.maxInterceptors ∧
      (∀ k2, k2 ≠ k → assocFind k2 st2.reg = assocFind k2 st.reg) := by
  obtain ⟨st2, hop, hfind, hl, hm, hother, _⟩ := interceptOp_spec st k f hf
  refine ⟨st2, _, hop, ?_, ?_, hl, hm, hother⟩
  · simp [interceptorsOp, hfind]
  · simp [interceptorsOp, hfind]

/-- Witness for C9: registering interceptor 3 for "t" on the fresh
emitter records the notification and leaves [3] as the list. -/
theorem intercept_appends_unconditionally_witness :
    ∃ st2 w, interceptOp initState (.str "t") (.vFun 3) =
      .ok (st2, [(.str "newInterceptor", [.vKey (.str "t"), .vFun 3])], w) ∧
      interceptorsOp st2 (.str "t") =
        interceptorsOp initState (.str "t") ++ [(Value.vFun 3).fid] ∧
      (interceptorsOp st2 (.str "t")).getLast? = some (Value.vFun 3).fid ∧
      st2.lstnrs = initState.lstnrs ∧
      st2.maxInterceptors = initState.maxInterceptors ∧
      (∀ k2, k2 ≠ EKey.str "t" →
        assocFind k2 st2.reg = assocFind k2 initState.reg) :=
  intercept_appends_unconditionally initState (.str "t") (.vFun 3) (by decide)

/-! ### Claim C5: removeInterceptor -/

theorem getD_mem : ∀ (l : List Nat) (j : Nat), j < l.length → l.getD j 0 ∈ l := by
  intro l
  induction l with
  | nil => intro j h; simp at h
  | cons y rest ih =>
    intro j h
    match j with
    | 0 => simp
    | j2 + 1 =>
      rw [List.getD_cons_succ]
      exact List.mem_cons_of_mem y (ih j2 (by simpa using h))

theorem lastIdx_none_iff {x : Nat} : ∀ l : List Nat, lastIdx x l = none ↔ x ∉ l := by
  intro l
  induction l with
  | nil => simp [lastIdx]
  | cons y rest ih =>
    constructor
    · intro h hm
      simp only [lastIdx] at h
      cases h1 : lastIdx x rest with
      | some j => rw [h1] at h; exact absurd h (by simp)
      | none =>
        rw [h1] at h
        by_cases hy : y = x
        · rw [if_pos hy] at h; exact absurd h (by simp)
        · rcases List.mem_cons.mp hm with hm1 | hm2
          · exact hy hm1.symm
          · exact (ih.mp h1) hm2
    · intro hm
      simp only [lastIdx]
      have hrest : lastIdx x rest = none := ih.mpr (fun h => hm (by simp [h]))
      rw [hrest]
      rw [if_neg (fun hy => hm (by simp [hy]))]

theorem lastIdx_spec {x : Nat} :
    ∀ (l : List Nat) (i : Nat), lastIdx x l = some i →
    i < l.length ∧ l.getD i 0 = x ∧
      ∀ j, i < j → j < l.length → l.getD j 0 ≠ x := by
  intro l
  induction l with
  | nil => intro i h; simp [lastIdx] at h
  | cons y rest ih =>
    intro i h
    simp only [lastIdx] at h
    cases h1 : lastIdx x rest with
    | some j =>
      rw [h1] at h
      have hi : i = j + 1 := by
        injection h with h2
        omega
      subst hi
      obtain ⟨hl, hv, hmax⟩ := ih j h1
      refine ⟨by simpa using hl, by simpa using hv, ?_⟩
      intro j2 hj2 hj2len
      match j2 with
      | 0 => omega
      | j3 + 1 =>
        simp only [List.getD_cons_succ]
        exact hmax j3 (by omega) (by simpa using hj2len)
    | none =>
      rw [h1] at h
      by_cases hy : y = x
      · rw [if_pos hy] at h
        have hi : i = 0 := by injection h with h2; omega
        subst hi
        refine ⟨by simp, by simpa using hy, ?_⟩
        intro j hj hjlen
        match j with
        | j2 + 1 =>
          simp only [List.getD_cons_succ]
          intro hx
          exact (lastIdx_none_iff rest).mp h1
            (hx ▸ getD_mem rest j2 (by simpa using hjlen))
      · rw [if_neg hy] at h
        exact absurd h (by simp)

/-- Claim C5: removeInterceptor throws a type error on a non-callable
argument; when no list exists for the key, or the function id is not in
the list, it is a silent no-op (state unchanged, no emission); otherwise
it removes exactly the last matching occurrence, deletes the key when
the list had a single element, and emits "removeInterceptor" with the
key and the function. -/
theorem removeInterceptor_contract :
    (∀ (st : EmitterState) (k : EKey) (f : Value), Value.isFun f = false →
      removeInterceptorOp st k f = .error "interceptor must be a function") ∧
    (∀ (st : EmitterState) (k : EKey) (f : Value), Value.isFun f = true →
      assocFind k st.reg = none → removeInterceptorOp st k f = .ok (st, [])) ∧
    (∀ (st : EmitterState) (k : EKey) (f : Value) (l : IList),
      Value.isFun f = true → assocFind k st.reg = some l →
      f.fid ∉ l.fns → removeInterceptorOp st k f = .ok (st, [])) ∧
    (∀ (st : EmitterState) (k : EKey) (f : Value) (l : IList),
      (st.reg.map Prod.fst).Nodup → Value.isFun f = true →
      assocFind k st.reg = some l → f.fid ∈ l.fns →
      ∃ i st2, lastIdx f.fid l.fns = some i ∧ i < l.fns.length ∧
        l.fns.getD i 0 = f.fid ∧
        (∀ j, i < j → j < l.fns.length → l.fns.getD j 0 ≠ f.fid) ∧
        removeInterceptorOp st k f =
          .ok (st2, [(.str "removeInterceptor", [.vKey k, f])]) ∧
        interceptorsOp st2 k = l.fns.eraseIdx i ∧
        (l.fns.length = 1 → assocFind k st2.reg = none) ∧
        st2.lstnrs = st.lstnrs ∧ st2.maxInterceptors = st.maxInterceptors ∧
        (∀ k2, k2 ≠ k → assocFind k2 st2.reg = assocFind k2 st.reg)) := by
  refine ⟨?_, ?_, ?_, ?_⟩
  · intro st k f hf
    simp [removeInterceptorOp, hf]
  · intro st k f hf hA
    simp [removeInterceptorOp, hf, hA]
  · intro st k f l hf hA hm
    have hlast : lastIdx f.fid l.fns = none := (lastIdx_none_iff l.fns).mpr hm
    simp [removeInterceptorOp, hf, hA, hlast]
  · intro st k f l hnd hf hA hm
    cases hlast : lastIdx f.fid l.fns with
    | none => exact absurd hm (by simpa using (lastIdx_none_iff l.fns).mp hlast)
    | some i =>
      obtain ⟨hlt, hval, hmax⟩ := lastIdx_spec l.fns i hlast
      by_cases hone : l.fns.length = 1
      · refine ⟨i, { st with reg := assocDel k st.reg }, rfl, hlt, hval, hmax,
          ?_, ?_, ?_, rfl, rfl, ?_⟩
        · simp only [removeInterceptorOp, hf, Bool.not_true, Bool.false_eq_true,
            if_false, hA, hlast]
          rw [if_pos hone]
        · have hdel : assocFind k (assocDel k st.reg) = none :=
            assocFind_del_self hnd
          obtain ⟨x, hx⟩ := List.length_eq_one.mp hone
          have hi0 : i = 0 := by rw [hx] at hlt; simpa using hlt
          rw [hx, hi0]
          simp [interceptorsOp, hdel]
        · intro _
          exact assocFind_del_self hnd
        · intro k2 hk2
          exact assocFind_del_ne hk2 st.reg
      · refine ⟨i, { st with reg :=
            (assocSet k (IList.mk (l.fns.eraseIdx i) l.warned) st.reg) },
          rfl, hlt, hval, hmax, ?_, ?_, ?_, rfl, rfl, ?_⟩
        · simp only [removeInterceptorOp, hf, Bool.not_true, Bool.false_eq_true,
            if_false, hA, hlast]
          rw [if_neg hone]
        · have := assocFind_set_self hA (IList.mk (l.fns.eraseIdx i) l.warned)
          simp [interceptorsOp, this]
        · intro h1
          exact absurd h1 hone
        · intro k2 hk2
          exact assocFind_set_ne hk2 st.reg _

/-- Witness for C5: the three behaviours at concrete inputs — type
error, silent no-op on an absent list, and a real removal on wSt. -/
theorem removeInterceptor_contract_witness :
    removeInterceptorOp initState (.str "x") (.vNat 0) =
      .error "interceptor must be a function" ∧
    removeInterceptorOp initState (.str "x") (.vFun 1) = .ok (initState, []) ∧
    (∃ i st2, lastIdx (Value.vFun 1).fid ([1] : List Nat) = some i ∧
      i < ([1] : List Nat).length ∧
      ([1] : List Nat).getD i 0 = (Value.vFun 1).fid ∧
      (∀ j, i < j → j < ([1] : List Nat).length →
        ([1] : List Nat).getD j 0 ≠ (Value.vFun 1).fid) ∧
      removeInterceptorOp wSt (.str "t") (.vFun 1) =
        .ok (st2, [(.str "removeInterceptor", [.vKey (.str "t"), .vFun 1])]) ∧
      interceptorsOp st2 (.str "t") = ([1] : List Nat).eraseIdx i ∧
      (([1] : List Nat).length = 1 → assocFind (.str "t") st2.reg = none) ∧
      st2.lstnrs = wSt.lstnrs ∧ st2.maxInterceptors = wSt.maxInterceptors ∧
      (∀ k2, k2 ≠ EKey.str "t" →
        assocFind k2 st2.reg = assocFind k2 wSt.reg)) :=
  ⟨removeInterceptor_contract.1 initState (.str "x") (.vNat 0) (by decide),
   removeInterceptor_contract.2.1 initState (.str "x") (.vFun 1)
     (by decide) (by decide),
   removeInterceptor_contract.2.2.2 wSt (.str "t") (.vFun 1) ⟨[1], false⟩
     (by decide) (by decide) (by decide) (by decide)⟩

/-! ### Claim C6: the registry never holds an empty list -/

theorem assocFind_mem {α : Type} {k : EKey} {v : α} :
    ∀ {L : List (EKey × α)}, assocFind k L = some v → (k, v) ∈ L := by
  intro L
  induction L with
  | nil => intro h; simp [assocFind] at h
  | cons p rest ih =>
    intro h
    by_cases hp : p.1 = k
    · rw [assocFind, if_pos hp] at h
      injection h with h2
      have hpe : (k, v) = p := by rw [← hp, ← h2]
      exact List.mem_cons.mpr (.inl hpe)
    · rw [assocFind, if_neg hp] at h
      exact List.mem_cons.mpr (.inr (ih h))

theorem interceptOp_error {st : EmitterState} {k : EKey} {f : Value}
    (hf : f.isFun = false) :
    interceptOp st k f = .error "interceptor must be a function" := by
  simp [interceptOp, hf]

theorem removeInterceptorOp_mem {st : EmitterState} {k : EKey} {f : Value}
    {st2 : EmitterState} {r : List Req}
    (h : removeInterceptorOp st k f = .ok (st2, r)) :
    ∀ p ∈ st2.reg, p ∈ st.reg ∨ p.2.fns ≠ [] := by
  cases hf : f.isFun with
  | false =>
    rw [removeInterceptorOp] at h
    rw [hf] at h
    simp at h
  | true =>
    simp only [removeInterceptorOp, hf, Bool.not_true, Bool.false_eq_true,
      if_false] at h
    cases hA : assocFind k st.reg with
    | none =>
      simp only [hA] at h
      injection h with h2
      have : st = st2 := congrArg Prod.fst h2
      intro p hp
      exact .inl (this ▸ hp)
    | some l =>
      simp only [hA] at h
      cases hlast : lastIdx f.fid l.fns with
      | none =>
        simp only [hlast] at h
        injection h with h2
        have : st = st2 := congrArg Prod.fst h2
        intro p hp
        exact .inl (this ▸ hp)
      | some i =>
        simp only [hlast] at h
        have hlt := (lastIdx_spec l.fns i hlast).1
        by_cases hone : l.fns.length = 1
        · rw [if_pos hone] at h
          injection h with h2
          have hst : ({ st with reg := assocDel k st.reg } : EmitterState) = st2 :=
            congrArg Prod.fst h2
          intro p hp
          rw [← hst] at hp
          exact .inl (mem_assocDel hp)
        · rw [if_neg hone] at h
          injection h with h2
          have hst : ({ st with reg := (assocSet k
              (IList.mk (l.fns.eraseIdx i) l.warned) st.reg) } : EmitterState) = st2 :=
            congrArg Prod.fst h2
          intro p hp
          rw [← hst] at hp
          rcases mem_assocSet hp with h3 | h4
          · right
            rw [h3]
            have hlen : (l.fns.eraseIdx i).length = l.fns.length - 1 := by
              rw [List.length_eraseIdx]
              simp [hlt]
            intro hnil
            have hnil2 : l.fns.eraseIdx i = [] := hnil
            rw [hnil2] at hlen
            simp at hlen
            omega
          · exact .inl h4

theorem regInv_interceptOp {st : EmitterState} (k : EKey) (f : Value)
    (hInv : regInv st) :
    regInv (match interceptOp st k f with | .ok r => r.1 | .error _ => st) := by
  cases hf : f.isFun with
  | false => rw [interceptOp_error hf]; exact hInv
  | true =>
    obtain ⟨st2, hop, _, _, _, _, hmem⟩ := interceptOp_spec st k f hf
    rw [hop]
    intro p hp
    rcases hmem p hp with ⟨_, h2⟩ | h3
    · rw [h2]; simp
    · exact hInv p h3

theorem regInv_removeInterceptorOp {st : EmitterState} (k : EKey) (f : Value)
    (hInv : regInv st) :
    regInv (match removeInterceptorOp st k f with
      | .ok r => r.1 | .error _ => st) := by
  cases hres : removeInterceptorOp st k f with
  | error _ => exact hInv
  | ok r =>
    intro p hp
    rcases removeInterceptorOp_mem
        (show removeInterceptorOp st k f = .ok (r.1, r.2) by rw [hres]) p hp
      with h1 | h2
    · exact hInv p h1
    · exact h2

theorem regInv_removeAllLoop (k : EKey) :
    ∀ (c : Nat) (st : EmitterState), regInv st →
      regInv (removeAllLoop c st k).1 := by
  intro c
  induction c with
  | zero => intro st h; exact h
  | succ c ih =>
    intro st h
    simp only [removeAllLoop]
    cases hres : removeInterceptorOp st k
        (.vFun ((((assocFind k st.reg).map IList.fns).getD []).getD c fakeId)) with
    | error _ => exact h
    | ok r =>
      refine ih r.1 ?_
      intro p hp
      rcases removeInterceptorOp_mem
          (show removeInterceptorOp st k
            (.vFun ((((assocFind k st.reg).map IList.fns).getD []).getD c fakeId)) =
              .ok (r.1, r.2) by rw [hres]) p hp
        with h1 | h2
      · exact h p h1
      · exact h2

theorem regInv_removeAllForKey (st : EmitterState) (k : EKey)
    (hInv : regInv st) : regInv (removeAllForKey st k).1 := by
  rw [removeAllForKey]
  cases hA : assocFind k st.reg with
  | none => exact hInv
  | some l =>
    intro p hp
    simp only at hp
    exact regInv_removeAllLoop k l.fns.length st hInv p (mem_assocDel hp)

theorem regInv_removeAllOp (st : EmitterState) (hInv : regInv st) :
    regInv (removeAllOp st).1 := by
  rw [removeAllOp]
  by_cases hg : (st.reg.filter (fun p => p.1.isStr)).isEmpty = true
  · rw [if_pos hg]; exact hInv
  · rw [if_neg hg]
    intro p hp
    simp at hp

theorem regInv_applyOp (st : EmitterState) (op : Op) (h : regInv st) :
    regInv (applyOp st op) := by
  cases op with
  | addI k f => exact regInv_interceptOp k f h
  | rmI k f => exact regInv_removeInterceptorOp k f h
  | rmAll o =>
    cases o with
    | none => exact regInv_removeAllOp st h
    | some k => exact regInv_removeAllForKey st k h

theorem regInv_applyOps : ∀ (ops : List Op) (st : EmitterState),
    regInv st → regInv (applyOps st ops) := by
  intro ops
  induction ops with
  | nil => intro st h; exact h
  | cons op rest ih =>
    intro st h
    exact ih (applyOp st op) (regInv_applyOp st op h)

/-- Claim C6: after any sequence of intercept / removeInterceptor /
removeAllInterceptors operations starting from a fresh emitter, every key
present in the registry maps to a non-empty interceptor list, so
interceptors(name) is non-empty exactly when the key is present and empty
for every absent key. -/
theorem registry_never_holds_empty_lists (ops : List Op) :
    regInv (applyOps initState ops) ∧
    ∀ k, (interceptorsOp (applyOps initState ops) k ≠ [] ↔
        (assocFind k (applyOps initState ops).reg).isSome = true) ∧
      (assocFind k (applyOps initState ops).reg = none →
        interceptorsOp (applyOps initState ops) k = []) := by
  have hInv : regInv (applyOps initState ops) :=
    regInv_applyOps ops initState (by intro p hp; simp [initState, fixListeners, onOp, assocFind] at hp)
  refine ⟨hInv, ?_⟩
  intro k
  cases hA : assocFind k (applyOps initState ops).reg with
  | none =>
    refine ⟨?_, fun _ => by simp [interceptorsOp, hA]⟩
    simp [interceptorsOp, hA]
  | some l =>
    have hne : l.fns ≠ [] := hInv (k, l) (assocFind_mem hA)
    refine ⟨?_, fun h => absurd h (by simp)⟩
    simp [interceptorsOp, hA, hne]

/-- Witness for C6 at a concrete operation sequence: add two, remove one,
bulk-clear another key. -/
theorem registry_never_holds_empty_lists_witness :
    regInv (applyOps initState
      [.addI (.str "a") (.vFun 1), .addI (.str "a") (.vFun 2),
       .rmI (.str "a") (.vFun 1), .rmAll (some (.str "a"))]) ∧
    interceptorsOp (applyOps initState
      [.addI (.str "a") (.vFun 1), .addI (.str "a") (.vFun 2),
       .rmI (.str "a") (.vFun 1), .rmAll (some (.str "a"))]) (.str "a") = [] :=
  ⟨(registry_never_holds_empty_lists
      [.addI (.str "a") (.vFun 1), .addI (.str "a") (.vFun 2),
       .rmI (.str "a") (.vFun 1), .rmAll (some (.str "a"))]).1,
   ((registry_never_holds_empty_lists
      [.addI (.str "a") (.vFun 1), .addI (.str "a") (.vFun 2),
       .rmI (.str "a") (.vFun 1), .rmAll (some (.str "a"))]).2
      (.str "a")).2 (by decide)⟩

/-! ### Claim C7: at most one leak warning -/

theorem warnPattern_count (m : Nat) : ∀ (n base : Nat),
    (warnPattern m base n).count true =
      if 0 < m ∧ base ≤ m ∧ m < base + n then 1 else 0 := by
  intro n
  induction n with
  | zero =>
    intro base
    simp only [warnPattern, List.count_nil]
    rw [if_neg]
    rintro ⟨h1, h2, h3⟩
    omega
  | succ n ih =>
    intro base
    simp only [warnPattern, List.count_cons]
    rw [ih (base + 1)]
    by_cases hq : 0 < m ∧ m = base
    · rw [decide_eq_true hq,
        if_neg (show ¬(0 < m ∧ base + 1 ≤ m ∧ m < base + 1 + n) by omega),
        if_pos (show 0 < m ∧ base ≤ m ∧ m < base + (n + 1) by omega)]
      simp
    · rw [decide_eq_false hq]
      by_cases hc : 0 < m ∧ base + 1 ≤ m ∧ m < base + 1 + n
      · rw [if_pos hc,
          if_pos (show 0 < m ∧ base ≤ m ∧ m < base + (n + 1) by omega)]
        simp
      · rw [if_neg hc,
          if_neg (show ¬(0 < m ∧ base ≤ m ∧ m < base + (n + 1)) by omega)]
        simp

theorem warnPattern_getD (m : Nat) : ∀ (n base j : Nat), j < n →
    (warnPattern m base n).getD j false = decide (0 < m ∧ m = base + j) := by
  intro n
  induction n with
  | zero => intro base j h; exact absurd h (by omega)
  | succ n ih =>
    intro base j h
    match j with
    | 0 =>
      simp only [warnPattern, List.getD_cons_zero, Nat.add_zero]
    | j2 + 1 =>
      simp only [warnPattern, List.getD_cons_succ]
      rw [ih (base + 1) j2 (by omega)]
      rw [decide_eq_decide]
      constructor
      · rintro ⟨a, b⟩; exact ⟨a, by omega⟩
      · rintro ⟨a, b⟩; exact ⟨a, by omega⟩

theorem interceptRun_spec (k : EKey) :
    ∀ (fs : List Nat) (st : EmitterState) (L : List Nat),
    interceptorsOp st k = L →
    warnedOf st k =
      decide (0 < st.maxInterceptors ∧ st.maxInterceptors < L.length) →
    (interceptRun k st fs).2 = warnPattern st.maxInterceptors L.length fs.length ∧
    interceptorsOp (interceptRun k st fs).1 k = L ++ fs ∧
    (interceptRun k st fs).1.maxInterceptors = st.maxInterceptors := by
  intro fs
  induction fs with
  | nil =>
    intro st L h1 h2
    exact ⟨by simp [interceptRun, warnPattern], by simp [interceptRun, h1], rfl⟩
  | cons f fs ih =>
    intro st L h1 h2
    obtain ⟨st2, hop, hfind, hls, hmax, hother, hmem⟩ :=
      interceptOp_spec st k (.vFun f) rfl
    rw [h1, h2] at hop hfind
    have hIO2 : interceptorsOp st2 k = L ++ [f] := by
      simp [interceptorsOp, hfind, Value.fid]
    have hWO2 : warnedOf st2 k = decide (0 < st2.maxInterceptors ∧
        st2.maxInterceptors < (L ++ [f]).length) := by
      simp only [warnedOf, hfind, hmax]
      have hlen : (L ++ [f]).length = L.length + 1 := by simp
      rw [hlen]
      cases hd : decide (0 < st.maxInterceptors ∧
          st.maxInterceptors < L.length) with
      | false => rw [Bool.false_or]
      | true =>
        rw [Bool.true_or]
        have hq := of_decide_eq_true hd
        exact (decide_eq_true ⟨hq.1, by omega⟩).symm
    obtain ⟨ih1, ih2, ih3⟩ := ih st2 (L ++ [f]) hIO2 hWO2
    have hw : decide ((decide (0 < st.maxInterceptors ∧
          st.maxInterceptors < L.length)) = false ∧ 0 < st.maxInterceptors ∧
        st.maxInterceptors < L.length + 1) =
        decide (0 < st.maxInterceptors ∧ st.maxInterceptors = L.length) := by
      rw [decide_eq_decide, decide_eq_false_iff_not]
      constructor
      · rintro ⟨hn, hp1, hp2⟩
        refine ⟨hp1, ?_⟩
        by_contra hne
        exact hn ⟨hp1, by omega⟩
      · rintro ⟨hp1, hp2⟩
        exact ⟨fun hh => by omega, hp1, by omega⟩
    refine ⟨?_, ?_, ?_⟩
    · simp only [interceptRun, hop, ih1, hmax]
      rw [hw]
      have hlen : (L ++ [f]).length = L.length + 1 := by simp
      rw [hlen]
      rfl
    · simp only [interceptRun, hop, ih2]
      simp
    · simp only [interceptRun, hop, ih3, hmax]

/-- Claim C7: starting with no list registered for the key, a run of
registrations warns exactly at the (m+1)-th one when the ceiling m is
positive (never more than once), never warns when the ceiling is 0, and
never throws or blocks a registration (the final list is exactly the
registered sequence). -/
theorem leak_warning_once (st : EmitterState) (k : EKey) (fs : List Nat)
    (hA : assocFind k st.reg = none) :
    (interceptRun k st fs).2 = warnPattern st.maxInterceptors 0 fs.length ∧
    (∀ j, j < fs.length → ((interceptRun k st fs).2.getD j false = true ↔
        0 < st.maxInterceptors ∧ st.maxInterceptors = j)) ∧
    ((interceptRun k st fs).2.count true =
      if 0 < st.maxInterceptors ∧ st.maxInterceptors < fs.length
      then 1 else 0) ∧
    (st.maxInterceptors = 0 → (interceptRun k st fs).2.count true = 0) ∧
    interceptorsOp (interceptRun k st fs).1 k = fs := by
  have h1 : interceptorsOp st k = [] := by simp [interceptorsOp, hA]
  have h2 : warnedOf st k = decide (0 < st.maxInterceptors ∧
      st.maxInterceptors < ([] : List Nat).length) := by
    simp [warnedOf, hA]
  obtain ⟨hflags, hlist, _⟩ := interceptRun_spec k fs st [] h1 h2
  have hflags0 : (interceptRun k st fs).2 =
      warnPattern st.maxInterceptors 0 fs.length := by simpa using hflags
  refine ⟨hflags0, ?_, ?_, ?_, by simpa using hlist⟩
  · intro j hj
    rw [hflags0, warnPattern_getD st.maxInterceptors fs.length 0 j hj]
    simp only [Nat.zero_add]
    exact decide_eq_true_iff
  · rw [hflags0, warnPattern_count]
    by_cases hc : 0 < st.maxInterceptors ∧ st.maxInterceptors < fs.length
    · rw [if_pos (by omega), if_pos hc]
    · rw [if_neg (by omega), if_neg hc]
  · intro h0
    rw [hflags0, warnPattern_count]
    rw [if_neg (by omega)]

/-- Witness for C7: with the ceiling set to 5 via setMaxInterceptors,
six registrations warn exactly once, at the sixth; and with ceiling 10,
eleven registrations warn exactly once, at the eleventh. -/
theorem leak_warning_once_witness :
    (interceptRun (.str "w") st5 [1, 2, 3, 4, 5, 6]).2 =
      warnPattern st5.maxInterceptors 0 6 ∧
    ((interceptRun (.str "w") st5 [1, 2, 3, 4, 5, 6]).2.count true =
      if 0 < st5.maxInterceptors ∧ st5.maxInterceptors < 6 then 1 else 0) ∧
    interceptorsOp (interceptRun (.str "w") st5 [1, 2, 3, 4, 5, 6]).1
      (.str "w") = [1, 2, 3, 4, 5, 6] ∧
    ((interceptRun (.str "w") initState
        [1, 2, 3, 4, 5, 6, 7, 8, 9, 10, 11]).2.count true =
      if 0 < initState.maxInterceptors ∧ initState.maxInterceptors < 11
      then 1 else 0) := by
  have h5 := leak_warning_once st5 (.str "w") [1, 2, 3, 4, 5, 6] (by decide)
  have h10 := leak_warning_once initState (.str "w")
    [1, 2, 3, 4, 5, 6, 7, 8, 9, 10, 11] (by decide)
  exact ⟨h5.1, h5.2.2.1, h5.2.2.2.2, h10.2.2.1⟩

/-! ### Claim C8: lifecycle shim filtering -/

/-- Claim C8: immediately after construction, and after patching a base
emitter that has no listeners registered for the two lifecycle names,
listeners("newListener") and listeners("removeListener") are empty even
though the base emitter holds the shim listener for both, and for every
other event name the override passes the base emitter's list through
unmodified. -/
theorem lifecycle_shim_filtered :
    (listenersOp initState (.str "newListener") = [] ∧
     listenersOp initState (.str "removeListener") = [] ∧
     listenersFor initState (.str "newListener") = [fakeId] ∧
     listenersFor initState (.str "removeListener") = [fakeId] ∧
     (∀ k, k ≠ EKey.str "newListener" → k ≠ EKey.str "removeListener" →
       listenersOp initState k = listenersFor initState k)) ∧
    (∀ ls : List (EKey × List Nat),
      assocFind (EKey.str "newListener") ls = none →
      assocFind (EKey.str "removeListener") ls = none →
      listenersOp (patchState ls) (.str "newListener") = [] ∧
      listenersOp (patchState ls) (.str "removeListener") = [] ∧
      listenersFor (patchState ls) (.str "newListener") = [fakeId] ∧
      listenersFor (patchState ls) (.str "removeListener") = [fakeId] ∧
      (∀ k, k ≠ EKey.str "newListener" → k ≠ EKey.str "removeListener" →
        listenersOp (patchState ls) k = (assocFind k ls).getD [])) := by
  constructor
  · refine ⟨by decide, by decide, by decide, by decide, ?_⟩
    intro k h1 h2
    simp [listenersOp, h1, h2]
  · intro ls h1 h2
    have e1 : onOp ⟨defaultMaxInterceptors, [], ls⟩ (.str "newListener") fakeId =
        ⟨defaultMaxInterceptors, [],
          ls ++ [(.str "newListener", [fakeId])]⟩ := by
      simp only [onOp, h1]
    have e2 : assocFind (EKey.str "removeListener")
        (ls ++ [(EKey.str "newListener", [fakeId])]) = none := by
      rw [assocFind_append_ne (show EKey.str "removeListener" ≠
        EKey.str "newListener" by decide)]
      exact h2
    have e3 : patchState ls = ⟨defaultMaxInterceptors, [],
        (ls ++ [(.str "newListener", [fakeId])]) ++
          [(.str "removeListener", [fakeId])]⟩ := by
      rw [patchState, fixListeners, e1]
      simp only [onOp, e2]
    have hfnl : listenersFor (patchState ls) (.str "newListener") = [fakeId] := by
      simp only [listenersFor, e3]
      rw [assocFind_append_ne (show EKey.str "newListener" ≠
        EKey.str "removeListener" by decide), assocFind_append_absent h1]
      rfl
    have hfrl : listenersFor (patchState ls) (.str "removeListener") = [fakeId] := by
      simp only [listenersFor, e3]
      rw [assocFind_append_absent e2]
      rfl
    refine ⟨?_, ?_, hfnl, hfrl, ?_⟩
    · simp only [listenersOp, hfnl]
      decide
    · simp only [listenersOp, hfrl]
      decide
    · intro k hk1 hk2
      simp only [listenersOp]
      rw [if_neg (show ¬(k = EKey.str "newListener" ∨
          k = EKey.str "removeListener") by
        rintro (h | h)
        · exact hk1 h
        · exact hk2 h)]
      simp only [listenersFor, e3]
      rw [assocFind_append_ne hk2, assocFind_append_ne hk1]

/-- Witness for C8's patch half at a concrete base emitter with one
pre-existing listener for "data". -/
theorem lifecycle_shim_filtered_witness :
    listenersOp (patchState [(.str "data", [3])]) (.str "newListener") = [] ∧
    listenersOp (patchState [(.str "data", [3])]) (.str "removeListener") = [] ∧
    listenersFor (patchState [(.str "data", [3])]) (.str "newListener") =
      [fakeId] ∧
    listenersOp (patchState [(.str "data", [3])]) (.str "data") =
      (assocFind (.str "data") [(EKey.str "data", [3])]).getD [] := by
  have h := lifecycle_shim_filtered.2 [(.str "data", [3])] (by decide) (by decide)
  exact ⟨h.1, h.2.1, h.2.2.1, h.2.2.2.2 (.str "data") (by decide) (by decide)⟩

end EventsIntercept
